import Mathlib

/-!
Verification of the RelVal comparison-orchestration engine
(`RelVal/o2dpg_release_validation.py`).

The Python source is shallowly embedded: filesystem interaction (glob walks,
`stat`, JSON loading) is abstracted by passing the discovered tree-relative
path lists, file-size functions and parsed JSON documents as explicit
arguments; everything downstream of those inputs is translated statement by
statement.  Paths below a root directory are modelled as lists of path
segments (what Python manipulates via `split("/")` and `join`).  Python
`float` arithmetic on file sizes is modelled exactly over `ℚ`; sizes
themselves are `ℕ` (byte counts from `stat`).  A Python statement that
raises (`ZeroDivisionError`, `AttributeError`) is modelled with `Except`.
-/

namespace O2DPG

/-- Severity labels, `REL_VAL_SEVERITY_MAP` keys (source line 92). -/
inductive Severity where
  | GOOD
  | WARNING
  | NONCRIT_NC
  | CRIT_NC
  | BAD
deriving DecidableEq, Repr

/-- Numeric severity ranks, the values of `REL_VAL_SEVERITY_MAP` (line 92). -/
def severityRank : Severity → ℕ
  | Severity.GOOD => 0
  | Severity.WARNING => 1
  | Severity.NONCRIT_NC => 2
  | Severity.CRIT_NC => 3
  | Severity.BAD => 4

/-- One entry of the per-test outcome list of a `Summary.json` document.
The first five fields are produced by the external comparison routine; the
trailing optional fields are injected by `make_summary` (lines 518-521) and
are `none` on a freshly parsed document. -/
structure TestOutcome where
  test_name : String
  result : Severity
  comparable : Bool
  value : ℚ
  threshold : ℚ
  name : Option String := none
  type_global : Option String := none
  type_specific : Option (List String) := none
  rel_path_plot : Option (List String) := none
deriving DecidableEq, Repr

/-- A parsed `Summary.json` / `SummaryGlobal.json` document: an ordered
mapping from histogram name to its outcome list (Python `dict` preserves
insertion order). -/
abbrev Doc := List (String × List TestOutcome)

/-! ### File-set matcher (`find_mutual_files`, lines 109-154) -/

/-- Lexicographic comparison of code-point lists; Python's `<=` on `str`. -/
def lexLe : List Char → List Char → Bool
  | [], _ => true
  | _ :: _, [] => false
  | a :: as, b :: bs =>
    if a.toNat < b.toNat then true
    else if b.toNat < a.toNat then false
    else lexLe as bs

/-- Python string `<=`, used by `list.sort()` on path strings. -/
def strLe (a b : String) : Bool := lexLe a.data b.data

/-- Python `list.sort()` on a list of strings.  Python's sort is a stable
sort with respect to `strLe`; since `strLe` is a total order whose
equivalent elements are equal strings, every correct sort produces the same
output, and insertion sort is used as the executable model. -/
def pySort (l : List String) : List String :=
  l.insertionSort (fun a b => strLe a b = true)

/-- Helper: does `g` occur at the head of `p`? -/
def isPrefixChars : List Char → List Char → Bool
  | [], _ => true
  | _ :: _, [] => false
  | a :: as, b :: bs => a == b && isPrefixChars as bs

/-- Helper: does `g` occur contiguously anywhere in `p`? -/
def isSubstrChars (g : List Char) : List Char → Bool
  | [] => isPrefixChars g []
  | c :: cs => isPrefixChars g (c :: cs) || isSubstrChars g cs

/-- Python's `g in ic` substring test on strings (line 148). -/
def substrMatch (g ic : String) : Bool := isSubstrChars g.data ic.data

/-- Lines 138-140: `intersection = files[0]` then repeated
`list(set(intersection) & set(f))`.  A Python `set` intersection is
order-unspecified but duplicate-free; it is modelled as deduplication
followed by a membership filter, which has the same elements and
multiplicities (the caller only consumes the result up to sorting). -/
def intersectAll : List (List String) → List String
  | [] => []
  | f :: rest => rest.foldl (fun acc g => acc.dedup.filter (fun p => g.contains p)) f

/-- Lines 143-149: `for g in grep: for ic in intersection_cache: if g in ic:
intersection.append(ic)`.  Note a path is appended once per matching
pattern. -/
def grepFilter (grep : List String) (intersection_cache : List String) : List String :=
  grep.flatMap (fun g => intersection_cache.filter (fun ic => substrMatch g ic))

/-- `find_mutual_files(dirs, glob_pattern, grep=...)` (lines 109-154).  The
recursive glob walk and root-prefix stripping (lines 123-132) are the
filesystem abstraction boundary: `files` holds, per directory, the
tree-relative paths the glob found there (distinct within one directory, as
glob results are).  The per-list `f.sort()` of line 129 and the final
`intersection.sort()` of line 152 are retained.  `grep = none` models the
default `grep=None`; an explicitly empty list is falsy in Python and is
skipped just like `None` (line 143 `if grep:`). -/
def find_mutual_files (files : List (List String)) (grep : Option (List String)) : List String :=
  let sorted_files := files.map pySort
  if sorted_files.isEmpty then []
  else
    let intersection := intersectAll sorted_files
    let intersection :=
      match grep with
      | none => intersection
      | some [] => intersection
      | some gs => grepFilter gs intersection
    pySort intersection

/-! ### Size-divergence auditor (`exceeding_difference_thresh`, lines 157-166,
and `file_sizes`, lines 169-206) -/

/-- `itertools.combinations(range(len(sizes)), 2)` (line 162): all pairs
`(i1, i2)` with `i1 < i2`, ordered first by `i1`, then by `i2`. -/
def combPairs (n : ℕ) : List (ℕ × ℕ) :=
  (List.range n).flatMap
    (fun i1 => ((List.range n).filter (fun i2 => decide (i1 < i2))).map (fun i2 => (i1, i2)))

/-- Loop body of `exceeding_difference_thresh` (lines 161-166), with the
local `diff = abs(sizes[i1] - sizes[i2])` of line 163 inlined.  Python
evaluates `diff / sizes[i2]`, raising `ZeroDivisionError` when
`sizes[i2] == 0`; that is the `Except.error` branch.  The duplicated
disjunct mirrors line 164 verbatim
(`if diff / sizes[i2] > threshold or diff / sizes[i2] > threshold`). -/
def etthGo (sizes : List ℕ) (threshold : ℚ) :
    List (ℕ × ℕ) → List (ℕ × ℕ) → Except Unit (List (ℕ × ℕ))
  | [], diff_indices => Except.ok diff_indices
  | p :: rest, diff_indices =>
    if (sizes.getD p.2 0 : ℚ) = 0 then Except.error ()
    else if |(sizes.getD p.1 0 : ℚ) - (sizes.getD p.2 0 : ℚ)| / (sizes.getD p.2 0 : ℚ) > threshold
        ∨ |(sizes.getD p.1 0 : ℚ) - (sizes.getD p.2 0 : ℚ)| / (sizes.getD p.2 0 : ℚ) > threshold then
      etthGo sizes threshold rest (diff_indices ++ [p])
    else etthGo sizes threshold rest diff_indices

/-- `exceeding_difference_thresh(sizes, threshold)` (lines 157-166). -/
def exceeding_difference_thresh (sizes : List ℕ) (threshold : ℚ) :
    Except Unit (List (ℕ × ℕ)) :=
  etthGo sizes threshold (combPairs sizes.length) []

/-- The dictionary `collect_dict` built by `file_sizes` (lines 188-206):
the input directories, the flagged files with their size rows, and the
threshold used. -/
structure FileSizesResult where
  directories : List String
  files : List (String × List ℕ)
  threshold : ℚ
deriving DecidableEq, Repr

/-- `file_sizes(dirs, threshold)` (lines 169-206).  `dirFiles` holds the
per-directory `*.root` paths found by the glob inside
`find_mutual_files(dirs, "*.root")`; `fsize i f` is
`Path(join(dirs[i], f)).stat().st_size`.  A file is recorded in `files`
exactly when `exceeding_difference_thresh` flags at least one index pair for
its size row (lines 199-202); the printed table is I/O and not modelled. -/
def file_sizes (dirs : List String) (dirFiles : List (List String))
    (fsize : ℕ → String → ℕ) (threshold : ℚ) : Except Unit FileSizesResult :=
  let intersection := find_mutual_files dirFiles none
  match intersection.foldlM (fun acc f =>
      let compare_sizes := (List.range dirs.length).map (fun i => fsize i f)
      (exceeding_difference_thresh compare_sizes threshold).map
        (fun diff_indices => if diff_indices.isEmpty then acc else acc ++ [(f, compare_sizes)]))
    [] with
  | Except.error e => Except.error e
  | Except.ok files => Except.ok ⟨dirs, files, threshold⟩

/-- The size-audit step of `rel_val_sim_dirs` (line 548):
`file_sizes([dir1, dir2], 0.5)`.  The literal `0.5` is hard-coded; the
user-supplied `args.threshold` (CLI default `0.1`, line 772) is accepted
here only to show it is never forwarded. -/
def rel_val_sim_dirs_file_sizes (dir1 dir2 : String) (dirFiles : List (List String))
    (fsize : ℕ → String → ℕ) (args_threshold : ℚ) : Except Unit FileSizesResult :=
  file_sizes [dir1, dir2] dirFiles fsize (1 / 2)

/-! ### Severity classifier (`print_summary`, lines 283-311) -/

/-- `test_n_hist_map[result].append(histo_name)` (line 302). -/
def bucketAppend (m : Severity → List String) (result : Severity) (histo_name : String) :
    Severity → List String :=
  fun s => if s = result then m s ++ [histo_name] else m s

/-- The severity buckets built by `print_summary` (lines 292-302):
`test_n_hist_map = {s: [] for s in REL_VAL_SEVERITY_MAP}`, then for every
histogram and every test with `test_name == "test_summary"`, the histogram
name is appended to the bucket of that test's `result`.  The count printout
(lines 304-309) is I/O over this map and not modelled. -/
def print_summary (summary : Doc) : Severity → List String :=
  summary.foldl
    (fun m ht =>
      ht.2.foldl
        (fun m test => if test.test_name = "test_summary" then bucketAppend m test.result ht.1 else m)
        m)
    (fun _ => [])

/-! ### Summary aggregator (`make_summary`, lines 495-522) -/

/-- Python `summary[histo_name] = tests` on a `dict` modelled as an ordered
association list: assigning to a present key replaces its value in place
(keeping the key's original position), a new key is appended. -/
def dictSet {α : Type} (m : List (String × α)) (k : String) (v : α) : List (String × α) :=
  if m.any (fun e => decide (e.1 = k)) then m.map (fun e => if e.1 = k then (k, v) else e)
  else m ++ [(k, v)]

/-- Reading `m[k]` from the ordered-association-list model of a Python
`dict` (keys are unique by construction, so the first binding is the
binding). -/
def dictGet {α : Type} (m : List (String × α)) (k : String) : Option α :=
  match m with
  | [] => none
  | e :: m => if e.1 = k then some e.2 else dictGet m k

/-- The field injection of lines 518-521: `test["name"]`,
`test["type_global"]`, `test["type_specific"]`,
`test["rel_path_plot"] = join(type_specific, "overlayPlots",
f"{histo_name}.png")`.  `type_specific` is kept in path-segment form. -/
def annotate_outcome (type_global : String) (type_specific : List String)
    (histo_name : String) (test : TestOutcome) : TestOutcome :=
  { test with
    name := some histo_name
    type_global := some type_global
    type_specific := some type_specific
    rel_path_plot := some (type_specific ++ ["overlayPlots", histo_name ++ ".png"]) }

/-- `make_summary(in_dir)` (lines 495-522) downstream of the glob: `docs`
holds the `(path, parsed JSON)` pairs for the discovered `Summary.json`
files, in glob order, with paths relative to `in_dir` in segment form.
Lines 509-512 compute `rel_val_path` by dropping the file name,
`type_specific = relpath(rel_val_path, in_dir)` (which is `"."` when the
document sits directly in `in_dir`) and `type_global =
type_specific.split("/")[0]`.  Line 515 stores the (aliased, then
annotated) test list under the histogram name — later documents overwrite
earlier ones holding the same name.  The dead local `make_summary = {}` of
line 513 is never read and is omitted. -/
def make_summary (docs : List (List String × Doc)) : Doc :=
  docs.foldl
    (fun summary pd =>
      let type_specific := pd.1.dropLast
      let type_global := type_specific.headD "."
      pd.2.foldl
        (fun s ht => dictSet s ht.1 (ht.2.map (annotate_outcome type_global type_specific ht.1)))
        summary)
    []

/-- The glob pattern `f"{in_dir}/**/Summary.json"` (line 500) on a path
relative to `in_dir`: with `recursive=True`, `**/` matches any chain of
directories (including none), so a path matches exactly when its final
segment is `Summary.json`. -/
def summaryGlobMatch (p : List String) : Bool := p.getLastD "" == "Summary.json"

/-- One aggregator run over an output tree: `fs` lists every file under the
output directory (relative segment paths, with the parsed document for those
that are JSON); the run selects the glob matches and merges them. -/
def aggregate_run (fs : List (List String × Doc)) : Doc :=
  make_summary (fs.filter (fun e => summaryGlobMatch e.1))

/-! ### Threshold rebuild (`make_new_threshold_file`, lines 582-592) -/

/-- `make_new_threshold_file(json_path, out_filepath)` (lines 582-592)
modelled on the parsed document; each written CSV line
`f"{histo_name},{t['test_name']},{t['value']}"` becomes a
`(histo_name, test_name, value)` triple, emitted in loop order; a
non-comparable outcome hits the `continue` (lines 590-591). -/
def make_new_threshold_file (json_in : Doc) : List (String × String × ℚ) :=
  json_in.foldl
    (fun lines ht =>
      ht.2.foldl
        (fun lines t => if !t.comparable then lines else lines ++ [(ht.1, t.test_name, t.value)])
        lines)
    []

/-! ### Directory-config group filtering (`rel_val_sim_dirs`, lines 557-561) -/

/-- Lines 557-561.  `run_over_keys = list(config.keys())`; a truthy
enable-list keeps only its members (line 559).  Line 561 then reads
`args.dir-dir_config_disable`: attribute lookup `args.dir` on the `rel-val`
argument namespace (which defines no `dir`) followed by a subtraction of the
unbound name `dir_config_disable` — the interpreter raises before any
filtering happens, so a truthy disable-list is the `Except.error` branch.
An absent CLI list (`None`) and an empty one are both falsy and are merged
into `[]` here. -/
def filter_run_over_keys (config_keys : List String)
    (dir_config_enable dir_config_disable : List String) : Except Unit (List String) :=
  let run_over_keys := config_keys
  let run_over_keys :=
    if dir_config_enable.isEmpty then run_over_keys
    else run_over_keys.filter (fun rok => dir_config_enable.contains rok)
  if dir_config_disable.isEmpty then Except.ok run_over_keys
  else Except.error ()

/-! ### Cross-run diff (`compare`, lines 683-709) -/

/-- The per-severity reporting step of `compare` (lines 693-706): `b1`, `b2`
are the two `print_summary` bucket maps (line 691); `intersection =
list(set(summaries[0][severity]) & set(summaries[1][severity]))` (line 694,
consumed only through membership, so it is modelled as an in-order
membership filter), and for each input the histogram names of its bucket not
in the intersection are reported (lines 702-704). -/
def compare_difference (b1 b2 : Severity → List String) (severity : Severity) :
    List String × List String :=
  let intersection := (b1 severity).filter (fun n => (b2 severity).contains n)
  ((b1 severity).filter (fun n => !(intersection.contains n)),
   (b2 severity).filter (fun n => !(intersection.contains n)))

/-! ## Helper lemmas -/

lemma contains_iff_mem (l : List String) (x : String) : l.contains x = true ↔ x ∈ l := by
  simp [List.contains, List.elem_iff]

lemma foldl_skip_emit {α β : Type} (p : α → Bool) (f : α → β) :
    ∀ (ts : List α) (acc : List β),
      ts.foldl (fun a t => if !p t then a else a ++ [f t]) acc = acc ++ (ts.filter p).map f := by
  intro ts
  induction ts with
  | nil => intro acc; simp
  | cons t ts ih =>
    intro acc
    rw [List.foldl_cons]
    by_cases h : p t
    · rw [if_neg (show ¬((!p t) = true) by simp [h]), ih, List.filter_cons_of_pos h]
      simp
    · rw [if_pos (show (!p t) = true by simp [h]), ih,
        List.filter_cons_of_neg (by simpa using h)]

lemma make_new_threshold_file_go :
    ∀ (doc : Doc) (acc : List (String × String × ℚ)),
      doc.foldl
        (fun lines ht =>
          ht.2.foldl
            (fun lines t =>
              if !t.comparable then lines else lines ++ [(ht.1, t.test_name, t.value)])
            lines)
        acc
      = acc ++ doc.flatMap
          (fun ht => (ht.2.filter (fun t => t.comparable)).map
            (fun t => (ht.1, t.test_name, t.value))) := by
  intro doc
  induction doc with
  | nil => intro acc; simp
  | cons ht doc ih =>
    intro acc
    rw [List.foldl_cons, foldl_skip_emit, ih, List.flatMap_cons, List.append_assoc]

lemma print_summary_inner (n : String) (sev : Severity) :
    ∀ (ts : List TestOutcome) (m : Severity → List String),
      (ts.foldl
          (fun m test =>
            if test.test_name = "test_summary" then bucketAppend m test.result n else m)
          m) sev
        = m sev
          ++ (ts.filter
                (fun t => decide (t.test_name = "test_summary") && decide (t.result = sev))).map
              (fun _ => n) := by
  intro ts
  induction ts with
  | nil => intro m; simp
  | cons t ts ih =>
    intro m
    by_cases h1 : t.test_name = "test_summary"
    · by_cases h2 : t.result = sev
      · simp [List.foldl_cons, h1, h2, ih, bucketAppend, List.filter_cons]
      · have h2' : ¬ sev = t.result := fun h => h2 h.symm
        simp [List.foldl_cons, h1, h2, h2', ih, bucketAppend, List.filter_cons]
    · simp [List.foldl_cons, h1, ih, List.filter_cons]

lemma print_summary_eq (summary : Doc) (sev : Severity) :
    print_summary summary sev
      = summary.flatMap
          (fun ht =>
            (ht.2.filter
                (fun t => decide (t.test_name = "test_summary") && decide (t.result = sev))).map
              (fun _ => ht.1)) := by
  unfold print_summary
  suffices h : ∀ (docs : Doc) (m : Severity → List String),
      (docs.foldl
          (fun m ht =>
            ht.2.foldl
              (fun m test =>
                if test.test_name = "test_summary" then bucketAppend m test.result ht.1 else m)
              m)
          m) sev
        = m sev ++ docs.flatMap
            (fun ht =>
              (ht.2.filter
                  (fun t => decide (t.test_name = "test_summary") && decide (t.result = sev))).map
                (fun _ => ht.1)) by
    simpa using h summary (fun _ => [])
  intro docs
  induction docs with
  | nil => intro m; simp
  | cons ht docs ih =>
    intro m
    rw [List.foldl_cons, ih, print_summary_inner, List.flatMap_cons, List.append_assoc]

/-! ## Claims -/

/-- Claim C1: for every summary document, the severity classifier
(`print_summary`) buckets an artifact name under a severity exactly when the
artifact carries an outcome with `test_name == "test_summary"` of that
severity; all other outcomes are ignored, and an artifact with no
`test_summary` outcome appears in no bucket. -/
theorem claim_C1_severity_classifier (summary : Doc) (n : String) (sev : Severity) :
    n ∈ print_summary summary sev ↔
      ∃ ts, (n, ts) ∈ summary ∧
        ∃ t ∈ ts, t.test_name = "test_summary" ∧ t.result = sev := by
  rw [print_summary_eq]
  simp only [List.mem_flatMap, List.mem_map, List.mem_filter, Bool.and_eq_true,
    decide_eq_true_eq]
  constructor
  · rintro ⟨⟨hn, ts⟩, hmem, ⟨t, ⟨ht, h1, h2⟩, rfl⟩⟩
    exact ⟨ts, hmem, t, ht, h1, h2⟩
  · rintro ⟨ts, hmem, t, ht, h1, h2⟩
    exact ⟨(n, ts), hmem, ⟨t, ⟨ht, h1, h2⟩, rfl⟩⟩

/-- Claim C4: the rebuilt threshold file holds exactly one
`artifact,test_name,value` line for each outcome with `comparable = true`
(in document order) and no line for any outcome with `comparable = false`. -/
theorem claim_C4_threshold_rebuild (doc : Doc) :
    make_new_threshold_file doc
      = doc.flatMap
          (fun ht => (ht.2.filter (fun t => t.comparable)).map
            (fun t => (ht.1, t.test_name, t.value))) := by
  unfold make_new_threshold_file
  simpa using make_new_threshold_file_go doc []

/-- Claim C3: at every severity level, the cross-run diff reports, per input
summary, exactly the artifact names bucketed at that severity in that
summary but not in the intersection of the two summaries' buckets; a name
bucketed at that severity in both summaries is never reported. -/
theorem claim_C3_cross_run_diff (b1 b2 : Severity → List String) (sev : Severity) (n : String) :
    (n ∈ (compare_difference b1 b2 sev).1 ↔ n ∈ b1 sev ∧ ¬(n ∈ b1 sev ∧ n ∈ b2 sev)) ∧
    (n ∈ (compare_difference b1 b2 sev).2 ↔ n ∈ b2 sev ∧ ¬(n ∈ b1 sev ∧ n ∈ b2 sev)) ∧
    (n ∈ b1 sev → n ∈ b2 sev →
      n ∉ (compare_difference b1 b2 sev).1 ∧ n ∉ (compare_difference b1 b2 sev).2) := by
  unfold compare_difference
  simp only [List.mem_filter, Bool.not_eq_true', contains_iff_mem]
  constructor
  · constructor
    · rintro ⟨h1, h2⟩
      refine ⟨h1, fun ⟨ha, hb⟩ => ?_⟩
      rw [← Bool.not_eq_true, contains_iff_mem] at h2
      exact h2 (by simp [List.mem_filter, contains_iff_mem]; exact ⟨ha, hb⟩)
    · rintro ⟨h1, h2⟩
      refine ⟨h1, ?_⟩
      rw [← Bool.not_eq_true, contains_iff_mem]
      intro hc
      simp only [List.mem_filter, contains_iff_mem] at hc
      exact h2 ⟨hc.1, hc.2⟩
  constructor
  · constructor
    · rintro ⟨h1, h2⟩
      refine ⟨h1, fun ⟨ha, hb⟩ => ?_⟩
      rw [← Bool.not_eq_true, contains_iff_mem] at h2
      exact h2 (by simp [List.mem_filter, contains_iff_mem]; exact ⟨ha, hb⟩)
    · rintro ⟨h1, h2⟩
      refine ⟨h1, ?_⟩
      rw [← Bool.not_eq_true, contains_iff_mem]
      intro hc
      simp only [List.mem_filter, contains_iff_mem] at hc
      exact h2 ⟨hc.1, hc.2⟩
  · intro ha hb
    constructor
    · rintro ⟨-, h2⟩
      rw [← Bool.not_eq_true, contains_iff_mem] at h2
      exact h2 (by simp only [List.mem_filter, contains_iff_mem]; exact ⟨ha, hb⟩)
    · rintro ⟨-, h2⟩
      rw [← Bool.not_eq_true, contains_iff_mem] at h2
      exact h2 (by simp only [List.mem_filter, contains_iff_mem]; exact ⟨ha, hb⟩)

/-- Witness for C3 at the spec's worked example: buckets
`WARNING = ["H1","H2"]` versus `WARNING = ["H2","H3"]`; the shared name
`"H2"` is reported by neither side. -/
theorem claim_C3_witness :
    "H2" ∉ (compare_difference (fun _ => ["H1", "H2"]) (fun _ => ["H2", "H3"]) Severity.WARNING).1 ∧
    "H2" ∉ (compare_difference (fun _ => ["H1", "H2"]) (fun _ => ["H2", "H3"]) Severity.WARNING).2 :=
  (claim_C3_cross_run_diff (fun _ => ["H1", "H2"]) (fun _ => ["H2", "H3"])
      Severity.WARNING "H2").2.2 (by decide) (by decide)

lemma mem_combPairs (n i1 i2 : ℕ) : (i1, i2) ∈ combPairs n ↔ i1 < i2 ∧ i2 < n := by
  unfold combPairs
  simp only [List.mem_flatMap, List.mem_map, List.mem_filter, List.mem_range,
    decide_eq_true_eq, Prod.mk.injEq]
  constructor
  · rintro ⟨a, ha, b, ⟨hb, hab⟩, rfl, rfl⟩
    exact ⟨hab, hb⟩
  · rintro ⟨h12, h2⟩
    exact ⟨i1, lt_trans h12 h2, i2, ⟨h2, h12⟩, rfl, rfl⟩

lemma ratioFlag_def (sizes : List ℕ) (threshold : ℚ) (p : ℕ × ℕ) :
    (decide (|(sizes.getD p.1 0 : ℚ) - (sizes.getD p.2 0 : ℚ)| / (sizes.getD p.2 0 : ℚ)
        > threshold) = true)
      ↔ |(sizes.getD p.1 0 : ℚ) - (sizes.getD p.2 0 : ℚ)| / (sizes.getD p.2 0 : ℚ)
          > threshold := by
  simp

lemma etthGo_ok (sizes : List ℕ) (threshold : ℚ) :
    ∀ (pairs : List (ℕ × ℕ)), (∀ p ∈ pairs, sizes.getD p.2 0 ≠ 0) →
      ∀ acc, etthGo sizes threshold pairs acc
        = Except.ok (acc ++ pairs.filter
            (fun p => decide
              (|(sizes.getD p.1 0 : ℚ) - (sizes.getD p.2 0 : ℚ)| / (sizes.getD p.2 0 : ℚ)
                > threshold))) := by
  intro pairs
  induction pairs with
  | nil => intro _ acc; simp [etthGo]
  | cons p rest ih =>
    intro h acc
    have hz : ¬ ((sizes.getD p.2 0 : ℚ) = 0) := by
      have := h p (List.mem_cons_self p rest)
      exact_mod_cast this
    rw [etthGo, if_neg hz]
    by_cases hc : |(sizes.getD p.1 0 : ℚ) - (sizes.getD p.2 0 : ℚ)| / (sizes.getD p.2 0 : ℚ)
        > threshold
    · rw [if_pos (Or.inl hc), ih (fun q hq => h q (List.mem_cons_of_mem p hq)),
        List.filter_cons_of_pos (by simpa using hc)]
      simp
    · rw [if_neg (by simpa using hc), ih (fun q hq => h q (List.mem_cons_of_mem p hq)),
        List.filter_cons_of_neg (by simpa using hc)]

lemma combPairs_nonzero (sizes : List ℕ) (h : ∀ s ∈ sizes, s ≠ 0) :
    ∀ p ∈ combPairs sizes.length, sizes.getD p.2 0 ≠ 0 := by
  rintro ⟨i1, i2⟩ hp
  have h2 : i2 < sizes.length := ((mem_combPairs sizes.length i1 i2).1 hp).2
  rw [List.getD_eq_getElem sizes 0 h2]
  exact h _ (List.getElem_mem h2)

/-- Claim C5: for every list of file sizes all non-zero and every threshold,
the size-divergence auditor flags an index pair `(i1, i2)` with `i1 < i2`
exactly when `|sizes[i1] - sizes[i2]| / sizes[i2]` is strictly greater than
the threshold; the denominator is always the second element of the pair,
and a ratio exactly equal to the threshold is not flagged (strict `>`). -/
theorem claim_C5_size_divergence_flagging (sizes : List ℕ) (threshold : ℚ)
    (h : ∀ s ∈ sizes, s ≠ 0) :
    ∃ flagged, exceeding_difference_thresh sizes threshold = Except.ok flagged ∧
      ∀ i1 i2 : ℕ, ((i1, i2) ∈ flagged ↔
        i1 < i2 ∧ i2 < sizes.length ∧
        |(sizes.getD i1 0 : ℚ) - (sizes.getD i2 0 : ℚ)| / (sizes.getD i2 0 : ℚ) > threshold) := by
  refine ⟨(combPairs sizes.length).filter
      (fun p => decide
        (|(sizes.getD p.1 0 : ℚ) - (sizes.getD p.2 0 : ℚ)| / (sizes.getD p.2 0 : ℚ)
          > threshold)), ?_, ?_⟩
  · unfold exceeding_difference_thresh
    rw [etthGo_ok sizes threshold (combPairs sizes.length) (combPairs_nonzero sizes h) []]
    rw [List.nil_append]
  · intro i1 i2
    rw [List.mem_filter, mem_combPairs, ratioFlag_def]
    tauto

/-- Witness for C5 at the spec's boundary example: sizes `(100, 201)` with
threshold `0.5` — the ratio `101/201 > 1/2` is flagged at pair `(0, 1)`. -/
theorem claim_C5_witness :
    (∀ s ∈ ([100, 201] : List ℕ), s ≠ 0) ∧
    ∃ flagged, exceeding_difference_thresh [100, 201] (1 / 2) = Except.ok flagged ∧
      ∀ i1 i2 : ℕ, ((i1, i2) ∈ flagged ↔
        i1 < i2 ∧ i2 < ([100, 201] : List ℕ).length ∧
        |(([100, 201] : List ℕ).getD i1 0 : ℚ) - (([100, 201] : List ℕ).getD i2 0 : ℚ)|
            / (([100, 201] : List ℕ).getD i2 0 : ℚ) > 1 / 2) :=
  ⟨by decide, claim_C5_size_divergence_flagging [100, 201] (1 / 2) (by decide)⟩

/-- Claim C10: the size-divergence check divides by the second size of each
pair with no zero guard.  Every pair `(i1, i2)` the loop compares has
`i1 < i2`, so the sizes used as denominators are exactly those at the
positions `i > 0`; under the precondition that every such
second-element size is non-zero (the size at index 0 is unconstrained)
the division-error branch is unreachable and the check returns
`Except.ok`, while on the concrete input `[100, 0]` — a zero-byte file in
the second tree — it raises a division error. -/
theorem claim_C10_division_guard :
    (∀ (sizes : List ℕ) (threshold : ℚ),
        (∀ i, 0 < i → i < sizes.length → sizes.getD i 0 ≠ 0) →
        (exceeding_difference_thresh sizes threshold).isOk = true) ∧
    exceeding_difference_thresh [100, 0] (1 / 10) = Except.error () := by
  constructor
  · intro sizes threshold h
    have hz : ∀ p ∈ combPairs sizes.length, sizes.getD p.2 0 ≠ 0 := by
      rintro ⟨i1, i2⟩ hp
      obtain ⟨h12, h2⟩ := (mem_combPairs sizes.length i1 i2).1 hp
      exact h i2 (Nat.lt_of_le_of_lt (Nat.zero_le i1) h12) h2
    unfold exceeding_difference_thresh
    rw [etthGo_ok sizes threshold (combPairs sizes.length) hz []]
    rfl
  · rfl

/-- Witness for C10: the size row `(0, 100)` — a zero-byte file in the
first tree only — satisfies the precondition (index 0 is never a
denominator) and the audit completes without a division error. -/
theorem claim_C10_witness :
    (exceeding_difference_thresh [0, 100] (1 / 2)).isOk = true :=
  claim_C10_division_guard.1 [0, 100] (1 / 2)
    (by
      intro i h1 h2
      have hi : i = 1 := by
        simp only [List.length_cons, List.length_nil] at h2
        omega
      subst hi
      decide)

/-- Claim C9: in directory-tree mode the size audit runs with the
hard-coded divergence threshold `0.5`: the audit's outcome is independent
of the `--threshold` CLI value, and the threshold recorded in the audit
result is `1/2`, never the user-supplied one. -/
theorem claim_C9_hardcoded_threshold (dir1 dir2 : String) (dirFiles : List (List String))
    (fsize : ℕ → String → ℕ) (t t' : ℚ) :
    rel_val_sim_dirs_file_sizes dir1 dir2 dirFiles fsize t
        = rel_val_sim_dirs_file_sizes dir1 dir2 dirFiles fsize t' ∧
    ∀ r, rel_val_sim_dirs_file_sizes dir1 dir2 dirFiles fsize t = Except.ok r →
      r.threshold = 1 / 2 := by
  refine ⟨rfl, ?_⟩
  intro r
  unfold rel_val_sim_dirs_file_sizes file_sizes
  dsimp only
  split
  · intro hr
    simp at hr
  · intro hr
    injection hr with h
    rw [← h]

/-- Witness for C9: with no mutual files, the audit result records the
hard-coded threshold `1/2` even though `--threshold` was `1/10`. -/
theorem claim_C9_witness :
    (⟨["a", "b"], [], 1 / 2⟩ : FileSizesResult).threshold = 1 / 2 :=
  (claim_C9_hardcoded_threshold "a" "b" [] (fun _ _ => 0) (1 / 10) (1 / 2)).2
    ⟨["a", "b"], [], 1 / 2⟩ rfl

/-- Claim C6 (code bug): with a truthy disable-list, the group filtering of
`rel_val_sim_dirs` does not complete: line 561 reads
`args.dir-dir_config_disable` — a typo for `args.dir_config_disable` — so
the interpreter raises instead of subtracting the disable-list.  Here the
embedded filter, evaluated at a two-group config with `"digits"` disabled,
reaches the raising branch. -/
theorem claim_C6_disable_list_raises :
    filter_run_over_keys ["sim", "digits"] [] ["digits"] = Except.error () := rfl

/-- Claim C8: the summary aggregation is a deterministic function of the
`Summary.json` documents below the output tree, and re-running it after a
first run has written its own outputs (`SummaryGlobal.json` or any other
file whose name is not `Summary.json`) yields the identical global summary,
with identical key order. -/
theorem claim_C8_aggregator_idempotent (fs written : List (List String × Doc))
    (h : ∀ e ∈ written, summaryGlobMatch e.1 = false) :
    aggregate_run (fs ++ written) = aggregate_run fs := by
  unfold aggregate_run
  rw [List.filter_append]
  have hnil : written.filter (fun e => summaryGlobMatch e.1) = [] := by
    rw [List.filter_eq_nil_iff]
    intro e he
    simp [h e he]
  rw [hnil, List.append_nil]

/-- Witness for C8: appending the run's own `SummaryGlobal.json` to an
output tree holding one task document leaves the aggregation unchanged. -/
theorem claim_C8_witness :
    (∀ e ∈ [((["SummaryGlobal.json"] : List String), ([] : Doc))], summaryGlobMatch e.1 = false) ∧
    aggregate_run ([(["sim", "Summary.json"], [])] ++ [(["SummaryGlobal.json"], [])])
      = aggregate_run [(["sim", "Summary.json"], [])] :=
  ⟨by decide,
    claim_C8_aggregator_idempotent [(["sim", "Summary.json"], [])]
      [(["SummaryGlobal.json"], [])] (by decide)⟩

/-! ## Dictionary-update lemmas for the aggregator -/

lemma dictGet_map_replace {α : Type} (k : String) (v : α) :
    ∀ m : List (String × α), m.any (fun e => decide (e.1 = k)) = true →
      dictGet (m.map (fun e => if e.1 = k then (k, v) else e)) k = some v := by
  intro m
  induction m with
  | nil => intro h; simp at h
  | cons e m ih =>
    intro h
    by_cases he : e.1 = k
    · simp [dictGet, he]
    · have h' : m.any (fun e => decide (e.1 = k)) = true := by simpa [he] using h
      simp [dictGet, he, ih h']

lemma dictGet_append_new {α : Type} (k : String) (v : α) :
    ∀ m : List (String × α), m.any (fun e => decide (e.1 = k)) = false →
      dictGet (m ++ [(k, v)]) k = some v := by
  intro m
  induction m with
  | nil => intro _; simp [dictGet]
  | cons e m ih =>
    intro h
    have he : ¬ e.1 = k := by
      intro hk
      simp [hk] at h
    have h' : m.any (fun e => decide (e.1 = k)) = false := by
      simpa [he] using h
    simp [dictGet, he, ih h']

lemma dictGet_dictSet_self {α : Type} (m : List (String × α)) (k : String) (v : α) :
    dictGet (dictSet m k v) k = some v := by
  unfold dictSet
  by_cases hany : m.any (fun e => decide (e.1 = k)) = true
  · rw [if_pos hany]
    exact dictGet_map_replace k v m hany
  · rw [if_neg hany]
    exact dictGet_append_new k v m (by rwa [Bool.not_eq_true] at hany)

lemma dictGet_map_replace_ne {α : Type} (k k' : String) (v : α) (hne : k ≠ k') :
    ∀ m : List (String × α),
      dictGet (m.map (fun e => if e.1 = k' then (k', v) else e)) k = dictGet m k := by
  intro m
  induction m with
  | nil => simp [dictGet]
  | cons e m ih =>
    by_cases he : e.1 = k'
    · have hek : ¬ e.1 = k := by rw [he]; exact fun hk => hne hk.symm
      have hk'k : ¬ k' = k := fun hk => hne hk.symm
      simp [dictGet, he, hek, hk'k, ih]
    · simp only [List.map_cons, if_neg he]
      by_cases hek : e.1 = k
      · simp [dictGet, hek]
      · simp [dictGet, hek, ih]

lemma dictGet_append_ne {α : Type} (k k' : String) (v : α) (hne : k ≠ k') :
    ∀ m : List (String × α), dictGet (m ++ [(k', v)]) k = dictGet m k := by
  intro m
  induction m with
  | nil =>
    have hk'k : ¬ k' = k := fun hk => hne hk.symm
    simp [dictGet, hk'k]
  | cons e m ih =>
    by_cases hek : e.1 = k
    · simp [dictGet, hek]
    · simp [dictGet, hek, ih]

lemma dictGet_dictSet_ne {α : Type} (m : List (String × α)) (k k' : String) (v : α)
    (hne : k ≠ k') : dictGet (dictSet m k' v) k = dictGet m k := by
  unfold dictSet
  by_cases hany : m.any (fun e => decide (e.1 = k')) = true
  · rw [if_pos hany]
    exact dictGet_map_replace_ne k k' v hne m
  · rw [if_neg hany]
    exact dictGet_append_ne k k' v hne m

lemma make_summary_doc_step (tg : String) (tsf : List String) (doc : Doc) :
    ∀ (summary : Doc) (h : String),
      dictGet
          (doc.foldl
            (fun s ht => dictSet s ht.1 (ht.2.map (annotate_outcome tg tsf ht.1)))
            summary)
          h
        = ((doc.reverse.find? (fun e => decide (e.1 = h))).map
            (fun e => some (e.2.map (annotate_outcome tg tsf h)))).getD (dictGet summary h) := by
  induction doc using List.reverseRecOn with
  | nil => intro summary h; simp
  | append_singleton doc ht ih =>
    intro summary h
    rw [List.foldl_append, List.foldl_cons, List.foldl_nil, List.reverse_append,
      List.reverse_singleton, List.singleton_append, List.find?_cons]
    by_cases hh : ht.1 = h
    · subst hh
      simp [dictGet_dictSet_self]
    · rw [dictGet_dictSet_ne _ _ _ _ (fun hk => hh hk.symm), ih summary h]
      simp [hh]

/-- Claim C2: the merged global summary maps each artifact name to the
(annotated) outcome list of the last-processed document containing that
name; a later-processed document's outcomes completely replace an earlier
one's on key collision, and a name in no document is absent from the
merge. -/
theorem claim_C2_last_writer_wins (docs : List (List String × Doc)) (h : String) :
    dictGet (make_summary docs) h
      = ((docs.reverse.find? (fun pd => pd.2.any (fun e => decide (e.1 = h)))).map
          (fun pd =>
            (pd.2.reverse.find? (fun e => decide (e.1 = h))).map
              (fun e => e.2.map
                (annotate_outcome (pd.1.dropLast.headD ".") pd.1.dropLast h)))).getD
        none := by
  induction docs using List.reverseRecOn with
  | nil => simp [make_summary, dictGet]
  | append_singleton docs pd ih =>
    unfold make_summary
    rw [List.foldl_append, List.foldl_cons, List.foldl_nil, List.reverse_append,
      List.reverse_singleton, List.singleton_append, List.find?_cons]
    rw [make_summary_doc_step]
    by_cases hpd : pd.2.any (fun e => decide (e.1 = h)) = true
    · have hsome : (pd.2.reverse.find? (fun e => decide (e.1 = h))).isSome = true := by
        rw [List.find?_isSome]
        simp only [List.any_eq_true, decide_eq_true_eq] at hpd
        obtain ⟨e, he, hek⟩ := hpd
        exact ⟨e, List.mem_reverse.mpr he, by simpa using hek⟩
      obtain ⟨e, hfind⟩ := Option.isSome_iff_exists.mp hsome
      simp [hpd, hfind]
    · have hnone : pd.2.reverse.find? (fun e => decide (e.1 = h)) = none := by
        rw [List.find?_eq_none]
        intro e he
        simp only [List.any_eq_true, decide_eq_true_eq] at hpd
        simp only [decide_eq_true_eq]
        exact fun hek => hpd ⟨e, List.mem_reverse.mp he, hek⟩
      rw [Bool.not_eq_true] at hpd
      rw [hpd, hnone]
      unfold make_summary at ih
      simpa using ih

/-! ## Order and counting lemmas for the file-set matcher -/

lemma lexLe_total : ∀ a b : List Char, (lexLe a b || lexLe b a) = true := by
  intro a
  induction a with
  | nil => intro b; simp [lexLe]
  | cons x as ih =>
    intro b
    cases b with
    | nil => simp [lexLe]
    | cons y bs =>
      by_cases h1 : x.toNat < y.toNat
      · simp [lexLe, h1]
      · by_cases h2 : y.toNat < x.toNat
        · simp [lexLe, h1, h2]
        · simp [lexLe, h1, h2, ih bs]

lemma lexLe_trans : ∀ a b c : List Char,
    lexLe a b = true → lexLe b c = true → lexLe a c = true := by
  intro a
  induction a with
  | nil => intro b c _ _; simp [lexLe]
  | cons x as ih =>
    intro b c hab hbc
    cases b with
    | nil => simp [lexLe] at hab
    | cons y bs =>
      cases c with
      | nil => simp [lexLe] at hbc
      | cons z cs =>
        by_cases hxy : x.toNat < y.toNat
        · by_cases hyz : y.toNat < z.toNat
          · have hxz : x.toNat < z.toNat := by omega
            simp [lexLe, hxz]
          · by_cases hzy : z.toNat < y.toNat
            · simp [lexLe, hyz, hzy] at hbc
            · have hxz : x.toNat < z.toNat := by omega
              simp [lexLe, hxz]
        · by_cases hyx : y.toNat < x.toNat
          · simp [lexLe, hxy, hyx] at hab
          · simp only [lexLe, if_neg hxy, if_neg hyx] at hab
            by_cases hyz : y.toNat < z.toNat
            · have hxz : x.toNat < z.toNat := by omega
              simp [lexLe, hxz]
            · by_cases hzy : z.toNat < y.toNat
              · simp [lexLe, hyz, hzy] at hbc
              · simp only [lexLe, if_neg hyz, if_neg hzy] at hbc
                have h1 : ¬ x.toNat < z.toNat := by omega
                have h2 : ¬ z.toNat < x.toNat := by omega
                simp only [lexLe, if_neg h1, if_neg h2]
                exact ih bs cs hab hbc

lemma strLe_total (a b : String) : (strLe a b || strLe b a) = true :=
  lexLe_total a.data b.data

lemma strLe_trans (a b c : String) (h1 : strLe a b = true) (h2 : strLe b c = true) :
    strLe a c = true :=
  lexLe_trans a.data b.data c.data h1 h2

lemma pySort_sorted (l : List String) :
    List.Sorted (fun a b => strLe a b = true) (pySort l) := by
  haveI : IsTotal String (fun a b => strLe a b = true) :=
    ⟨fun a b => Bool.or_eq_true_iff.mp (strLe_total a b)⟩
  haveI : IsTrans String (fun a b => strLe a b = true) :=
    ⟨fun a b c => strLe_trans a b c⟩
  exact List.sorted_insertionSort _ l

lemma pySort_count (l : List String) (p : String) : (pySort l).count p = l.count p :=
  (List.perm_insertionSort _ l).count_eq p

lemma pySort_nodup (l : List String) (h : l.Nodup) : (pySort l).Nodup :=
  (List.perm_insertionSort _ l).nodup_iff.mpr h

lemma foldl_dedup_filter_nodup :
    ∀ (rest : List (List String)) (acc : List String),
      (rest.foldl (fun acc g => acc.dedup.filter (fun p => g.contains p)) acc).Nodup
        ∨ rest = [] := by
  intro rest
  induction rest with
  | nil => intro acc; right; rfl
  | cons g rest ih =>
    intro acc
    left
    rw [List.foldl_cons]
    rcases ih (acc.dedup.filter (fun p => g.contains p)) with h | h
    · exact h
    · rw [h, List.foldl_nil]
      exact List.Nodup.filter _ (List.nodup_dedup acc)

lemma intersectAll_nodup (files : List (List String)) (h : ∀ f ∈ files, f.Nodup) :
    (intersectAll (files.map pySort)).Nodup := by
  cases files with
  | nil => simp [intersectAll]
  | cons f fs =>
    have hstep : intersectAll ((f :: fs).map pySort)
        = (fs.map pySort).foldl (fun acc g => acc.dedup.filter (fun p => g.contains p))
            (pySort f) := rfl
    rw [hstep]
    rcases foldl_dedup_filter_nodup (fs.map pySort) (pySort f) with hn | hn
    · exact hn
    · rw [hn, List.foldl_nil]
      exact pySort_nodup f (h f (List.mem_cons_self f fs))

lemma count_filter_eq (q : String → Bool) (l : List String) (p : String) :
    (l.filter q).count p = if q p = true then l.count p else 0 := by
  by_cases hq : q p = true
  · rw [if_pos hq, List.count_filter hq]
  · rw [if_neg hq, List.count_eq_zero]
    intro hmem
    exact hq (List.mem_filter.mp hmem).2

lemma sum_map_ite_one (q : String → Bool) :
    ∀ gs : List String, (gs.map (fun g => if q g = true then 1 else 0)).sum = gs.countP q := by
  intro gs
  induction gs with
  | nil => simp
  | cons g gs ih =>
    rw [List.map_cons, List.sum_cons, ih, List.countP_cons]
    omega

lemma grepFilter_count (gs : List String) (inter : List String) (hn : inter.Nodup)
    (p : String) :
    (grepFilter gs inter).count p
      = if p ∈ inter then gs.countP (fun g => substrMatch g p) else 0 := by
  unfold grepFilter
  rw [List.count_flatMap]
  by_cases hp : p ∈ inter
  · rw [if_pos hp]
    have hone : inter.count p = 1 := List.count_eq_one_of_mem hn hp
    have : (inter.map (fun _ => ())).length = inter.length := by simp
    calc (gs.map (List.count p ∘ fun g => inter.filter (fun ic => substrMatch g ic))).sum
        = (gs.map (fun g => if substrMatch g p = true then 1 else 0)).sum := by
          refine congrArg List.sum (List.map_congr_left ?_)
          intro g _
          simp only [Function.comp_apply]
          rw [count_filter_eq, hone]
      _ = gs.countP (fun g => substrMatch g p) := sum_map_ite_one _ gs
  · rw [if_neg hp]
    refine List.sum_eq_zero ?_
    intro x hx
    obtain ⟨g, -, rfl⟩ := List.mem_map.mp hx
    simp only [Function.comp_apply]
    rw [count_filter_eq]
    have hz : inter.count p = 0 := List.count_eq_zero.mpr hp
    rw [hz]
    simp

/-- Counterexample to claim C7: with both trees containing the single file
`"ab"` and grep patterns `["a", "b"]`, both patterns match, the path is
appended once per pattern, and the result lists `"ab"` twice — the claim's
"each path occurring once" is false. -/
theorem claim_C7_counterexample :
    find_mutual_files [["ab"], ["ab"]] (some ["a", "b"]) = ["ab", "ab"] ∧
    ¬ (find_mutual_files [["ab"], ["ab"]] (some ["a", "b"])).Nodup := by
  constructor
  · rfl
  · decide

/-- Claim C7 (amended): for every list of trees (each with duplicate-free
glob results) and non-empty grep list, the file-set matcher returns exactly
the tree-relative paths of the trees' intersection containing at least one
grep pattern as a substring (OR semantics), each such path occurring once
per grep pattern it contains (so a path matching several patterns is
repeated, not unique); the result is sorted lexicographically, and an empty
intersection yields an empty result, never an error. -/
theorem claim_C7_grep_matcher (files : List (List String)) (gs : List String)
    (hnd : ∀ f ∈ files, f.Nodup) (hgs : gs ≠ []) :
    List.Sorted (fun a b => strLe a b = true) (find_mutual_files files (some gs)) ∧
    (∀ p, (find_mutual_files files (some gs)).count p
        = if p ∈ intersectAll (files.map pySort) then gs.countP (fun g => substrMatch g p)
          else 0) ∧
    (intersectAll (files.map pySort) = [] → find_mutual_files files (some gs) = []) := by
  obtain ⟨g, gs', rfl⟩ := List.exists_cons_of_ne_nil hgs
  cases files with
  | nil =>
    refine ⟨by simp [find_mutual_files], ?_, by simp [find_mutual_files]⟩
    intro p
    simp [find_mutual_files, intersectAll]
  | cons f fs =>
    have hfm : find_mutual_files (f :: fs) (some (g :: gs'))
        = pySort (grepFilter (g :: gs') (intersectAll ((f :: fs).map pySort))) := rfl
    have hnodup : (intersectAll ((f :: fs).map pySort)).Nodup := intersectAll_nodup _ hnd
    refine ⟨?_, ?_, ?_⟩
    · rw [hfm]; exact pySort_sorted _
    · intro p
      rw [hfm, pySort_count, grepFilter_count _ _ hnodup]
    · intro hempty
      rw [hfm, hempty]
      have hgrep : grepFilter (g :: gs') [] = [] := by simp [grepFilter]
      rw [hgrep]
      rfl

/-- Witness for the amended C7 at trees `["ab"]` and `["ab", "cd"]` with
grep list `["a", "b"]`: the hypotheses hold and the instantiated conclusion
follows from the theorem. -/
theorem claim_C7_witness :
    (∀ f ∈ [["ab"], ["ab", "cd"]], f.Nodup) ∧ (["a", "b"] ≠ ([] : List String)) ∧
    (List.Sorted (fun a b => strLe a b = true)
        (find_mutual_files [["ab"], ["ab", "cd"]] (some ["a", "b"])) ∧
      (∀ p, (find_mutual_files [["ab"], ["ab", "cd"]] (some ["a", "b"])).count p
          = if p ∈ intersectAll ([["ab"], ["ab", "cd"]].map pySort)
            then (["a", "b"] : List String).countP (fun g => substrMatch g p) else 0) ∧
      (intersectAll ([["ab"], ["ab", "cd"]].map pySort) = [] →
        find_mutual_files [["ab"], ["ab", "cd"]] (some ["a", "b"]) = [])) :=
  ⟨by decide, by decide,
    claim_C7_grep_matcher [["ab"], ["ab", "cd"]] ["a", "b"] (by decide) (by decide)⟩

end O2DPG
